import Mathlib

/-!
Shallow embedding of `src/classes/Twitter.py` (MoneyPrinterV2).

The file models the three concerns of the `Twitter` class:
  * the Post Store (`get_posts`, `add_post`) acting on a JSON store file,
  * the Content Generator (`generate_post`) over an abstract backend,
  * the Browser Poster control flow of `post`, with the browser abstracted
    to the outcomes of its two explicit waits.

The store file is modelled as `Option Doc`: `none` when the file does not
exist on disk, `some d` when it holds the parsed document `d`.
-/

set_option autoImplicit false
set_option maxRecDepth 100000

namespace MoneyPrinter

/-- JSON values as handled by the Python code after parsing. -/
inductive JVal where
  | null : JVal
  | bool : Bool → JVal
  | num : Int → JVal
  | str : String → JVal
  | arr : List JVal → JVal
  | obj : List (String × JVal) → JVal
  deriving Repr

/-- A post dictionary as built by `Twitter.post`:
`content` and `date` string fields. -/
structure Post where
  content : String
  date : String
  deriving Repr, DecidableEq

/-- An Account Post Record: a dictionary with an `id` field and an optional
`posts` field. The `posts` field may be absent (`none`): `get_posts` reads it
with `account.get("posts", [])` and `add_post` inserts it when missing. -/
structure Account where
  id : String
  posts : Option (List Post)
  deriving Repr, DecidableEq

/-- The store document. The `accounts` key may be absent (`none`); every other
top-level key of the JSON object — such as the legacy top-level `posts` key —
is carried verbatim in `others`, which the store operations never touch. -/
structure Doc where
  accounts : Option (List Account)
  others : List (String × JVal)

/-- The store file: `none` when the file does not exist. -/
abbrev StoreFile := Option Doc

/-- The default document written when the cache file is absent:
the dictionary with `posts` mapped to the empty list and `accounts`
mapped to the empty list. -/
def defaultDoc : Doc :=
  ⟨some [], [("posts", JVal.arr [])]⟩

/-- Reading the store after ensuring it exists: `get_posts` first creates the
file with `defaultDoc` when absent, then parses it. This is also the document
seen by `add_post` as `previous_json`, because `add_post` begins by calling
`get_posts`. -/
def readOrInit (f : StoreFile) : Doc :=
  f.getD defaultDoc

/-- The file state after a `get_posts` call: the default document when the
file was absent, otherwise unchanged. -/
def get_posts_file (f : StoreFile) : StoreFile :=
  some (readOrInit f)

/-- The pure part of `Twitter.get_posts`: when the parsed document has an
`accounts` key, scan it for the first record whose `id` equals the account
uuid and return its `posts` (defaulting to the empty list); otherwise, or
when no record matches, return the empty list. -/
def findPosts (uuid : String) (d : Doc) : List Post :=
  match d.accounts with
  | none => []
  | some accs =>
    match accs.find? (fun a => a.id == uuid) with
    | some a => a.posts.getD []
    | none => []

/-- `Twitter.get_posts`: initialize the file when absent, then read the
posts of the matching account. -/
def get_posts (uuid : String) (f : StoreFile) : List Post :=
  findPosts uuid (readOrInit f)

/-- The loop of `Twitter.add_post` over `previous_json["accounts"]`: append
`post` to the `posts` of the first record whose `id` matches (creating its
`posts` field when missing) and stop there; when no record matches, append a
fresh record with that single post at the end of the list. -/
def addToAccounts (uuid : String) (post : Post) : List Account → List Account
  | [] => [⟨uuid, some [post]⟩]
  | a :: rest =>
    if a.id == uuid then ⟨a.id, some (a.posts.getD [] ++ [post])⟩ :: rest
    else a :: addToAccounts uuid post rest

/-- `Twitter.add_post`. The opening `posts = self.get_posts()` call only
ensures the file exists: the local list it mutates is discarded. The body
re-reads the document, inserts the `accounts` key when missing, runs the
account loop, and rewrites the whole file. The returned `Doc` is the new
file content. -/
def add_post (uuid : String) (post : Post) (f : StoreFile) : Doc :=
  let d := readOrInit f
  let accs := d.accounts.getD []
  ⟨some (addToAccounts uuid post accs), d.others⟩

/-- Iterated `add_post` calls for one account, oldest first. -/
def addPosts (uuid : String) (f : StoreFile) : List Post → StoreFile
  | [] => f
  | p :: ps => addPosts uuid (some (add_post uuid p f)) ps

/-- Sanitization in `generate_post`: `re.sub` removes every asterisk
character, then `str.replace` removes every double-quote character. -/
def sanitize (s : String) : String :=
  String.mk (((s.data.filter (fun c => c ≠ '*'))).filter (fun c => c ≠ '\"'))

/-- Outcome of one `generate_post` call tree. `fatal` is the `sys.exit(1)`
taken when the backend returns `None`; `diverge` marks that the recursion has
not returned within the given recursion budget. -/
inductive GenResult where
  | ok : String → GenResult
  | fatal : GenResult
  | diverge : GenResult
  deriving Repr, DecidableEq

/-- `Twitter.generate_post`, with the g4f call abstracted as `backend`,
indexed by the attempt number, and the unbounded Python recursion given an
explicit recursion budget `fuel`. A `None` completion exits the process;
otherwise the completion is sanitized and, when its length is at least 260,
discarded and regenerated; a shorter completion is returned as-is. -/
def generate_post (backend : Nat → Option String) : Nat → Nat → GenResult
  | 0, _ => GenResult.diverge
  | fuel + 1, attempt =>
    match backend attempt with
    | none => GenResult.fatal
    | some completion =>
      let cleaned := sanitize completion
      if 260 ≤ cleaned.length then generate_post backend fuel (attempt + 1)
      else GenResult.ok cleaned

/-- Control flow of `Twitter.post` with the browser abstracted: the two
explicit waits either succeed or time out. A composer timeout is caught and
the method returns at once; a submit timeout likewise. Only when both waits
succeed is `add_post` invoked with the content and timestamp. The result is
the new file state and whether the success message was reached. -/
def post_run (composerVisible submitClickable : Bool) (uuid : String)
    (content date : String) (f : StoreFile) : StoreFile × Bool :=
  if composerVisible = false then (f, false)
  else if submitClickable = false then (f, false)
  else (some (add_post uuid ⟨content, date⟩ f), true)

/-- A backend that always answers with a 300-character text, as in the
injected-backend scenario of the spec. -/
def backend300 : Nat → Option String :=
  fun _ => some (String.mk (List.replicate 300 'a'))

/-- A backend answering a 300-character text on the first attempt and a
short text on every later attempt. -/
def witnessBackend : Nat → Option String :=
  fun attempt =>
    if attempt = 0 then some (String.mk (List.replicate 300 'a')) else some "short"

/-- A backend whose every response sanitizes to a text of at least 260
characters: the regeneration condition fires on every attempt. -/
def AlwaysLong (backend : Nat → Option String) : Prop :=
  ∀ attempt : Nat, ∃ r : String, backend attempt = some r ∧ 260 ≤ (sanitize r).length

/-- The generator, run against a backend, returns an answer (a text or the
fatal exit) within some finite recursion budget. -/
def ReportsOutcome (backend : Nat → Option String) : Prop :=
  ∃ fuel : Nat, generate_post backend fuel 0 ≠ GenResult.diverge

/-- Dictionary field access as the Python readers perform it: the value at
the first matching key. -/
def jLookup (k : String) (kvs : List (String × JVal)) : Option JVal :=
  (kvs.find? (fun kv => kv.1 == k)).map (fun kv => kv.2)

/-- The JSON value a Post dictionary holds when the document is written out. -/
def Post.toJVal (p : Post) : JVal :=
  JVal.obj [("content", JVal.str p.content), ("date", JVal.str p.date)]

/-- The JSON value of an Account Post Record: the `posts` key is present
exactly when the record carries one. -/
def Account.toJVal (a : Account) : JVal :=
  JVal.obj (("id", JVal.str a.id) ::
    (match a.posts with
     | none => []
     | some ps => [("posts", JVal.arr (ps.map Post.toJVal))]))

/-- The JSON value of the whole store document as written by `add_post`:
the `accounts` key (when present) followed by the untouched other keys. -/
def Doc.toJVal (d : Doc) : JVal :=
  JVal.obj ((match d.accounts with
             | none => []
             | some accs => [("accounts", JVal.arr (accs.map Account.toJVal))]) ++
            d.others)

/-- Reading a Post back from a parsed JSON value, by the field accesses the
code performs on post dictionaries. -/
def decodePost : JVal → Option Post
  | JVal.obj kvs =>
    match jLookup "content" kvs, jLookup "date" kvs with
    | some (JVal.str c), some (JVal.str dt) => some ⟨c, dt⟩
    | _, _ => none
  | _ => none

/-- Reading every element of a parsed JSON array, failing when any element
fails. -/
def decodeList {α : Type} (dec : JVal → Option α) : List JVal → Option (List α)
  | [] => some []
  | x :: xs =>
    match dec x with
    | none => none
    | some v => (decodeList dec xs).map (fun vs => v :: vs)

/-- Reading a list of Posts back from a parsed JSON array. -/
def decodePosts : JVal → Option (List Post)
  | JVal.arr xs => decodeList decodePost xs
  | _ => none

/-- Reading an Account Post Record back: `account["id"]` must be a string,
and an absent `posts` key stays absent. -/
def decodeAccount : JVal → Option Account
  | JVal.obj kvs =>
    (match jLookup "id" kvs with
     | some (JVal.str i) =>
       match jLookup "posts" kvs with
       | none => some ⟨i, none⟩
       | some pj => (decodePosts pj).map (fun ps => ⟨i, some ps⟩)
     | _ => none)
  | _ => none

/-- Reading the store document back from a parsed JSON value: the
`accounts` key is looked up as the readers do, every other key is kept. -/
def decodeDoc : JVal → Option Doc
  | JVal.obj kvs =>
    (match jLookup "accounts" kvs with
     | none => some ⟨none, kvs.filter (fun kv => kv.1 ≠ "accounts")⟩
     | some (JVal.arr xs) =>
       (decodeList decodeAccount xs).map
         (fun accs => ⟨some accs, kvs.filter (fun kv => kv.1 ≠ "accounts")⟩)
     | some _ => none)
  | _ => none

/-- A sample store document used to witness the round-trip theorem. -/
def sampleDoc : Doc :=
  ⟨some [⟨"abc", some [⟨"hello", "01/02/2025, 10:00:00"⟩]⟩, ⟨"xyz", none⟩],
   [("posts", JVal.arr [])]⟩

/-- Number of Account Post Records carrying a given id. -/
def countId (uuid : String) (accs : List Account) : Nat :=
  (accs.filter (fun a => a.id == uuid)).length

/-- The identifier-uniqueness invariant: each id occurs in at most one
Account Post Record. -/
def UniqueIds (accs : List Account) : Prop :=
  ∀ u : String, countId u accs ≤ 1

/-! Helper lemmas about the account loop. -/

lemma countId_nil (u : String) : countId u [] = 0 := rfl

lemma countId_cons (u : String) (a : Account) (l : List Account) :
    countId u (a :: l) = if a.id == u then countId u l + 1 else countId u l := by
  simp only [countId, List.filter_cons]
  split <;> simp

lemma addToAccounts_not_found (uuid : String) (p : Post) :
    ∀ accs : List Account, (∀ a ∈ accs, a.id ≠ uuid) →
      addToAccounts uuid p accs = accs ++ [⟨uuid, some [p]⟩]
  | [], _ => rfl
  | a :: rest, h => by
    have ha : ¬ a.id = uuid := h a (List.mem_cons_self a rest)
    simp only [addToAccounts, beq_iff_eq, if_neg ha, List.cons_append, List.cons.injEq, true_and]
    exact addToAccounts_not_found uuid p rest (fun x hx => h x (List.mem_cons_of_mem a hx))

lemma countId_addToAccounts (uuid u : String) (p : Post) :
    ∀ accs : List Account,
      countId u (addToAccounts uuid p accs) =
        if u = uuid ∧ (∀ a ∈ accs, a.id ≠ uuid)
        then countId u accs + 1 else countId u accs
  | [] => by
    rw [show addToAccounts uuid p [] = [⟨uuid, some [p]⟩] from rfl, countId_cons, countId_nil]
    by_cases h : u = uuid
    · simp [h]
    · have hb : (uuid == u) = false := beq_eq_false_iff_ne.mpr (fun e => h e.symm)
      simp [hb, h]
  | a :: rest => by
    by_cases h : a.id = uuid
    · have hcond : ¬ (u = uuid ∧ ∀ x ∈ a :: rest, x.id ≠ uuid) := by
        rintro ⟨-, hall⟩; exact hall a (List.mem_cons_self a rest) h
      simp only [addToAccounts, beq_iff_eq, if_pos h, if_neg hcond, countId_cons]
    · have ih := countId_addToAccounts uuid u p rest
      have hiff : (u = uuid ∧ ∀ x ∈ a :: rest, x.id ≠ uuid) ↔
          (u = uuid ∧ ∀ x ∈ rest, x.id ≠ uuid) := by
        simp only [List.forall_mem_cons, and_congr_right_iff]
        exact fun _ => and_iff_right h
      simp only [addToAccounts, beq_iff_eq, if_neg h, countId_cons, ih]
      by_cases hc : u = uuid ∧ ∀ x ∈ rest, x.id ≠ uuid
      · rw [if_pos hc, if_pos (hiff.mpr hc)]
        split <;> omega
      · rw [if_neg hc, if_neg (fun hx => hc (hiff.mp hx))]

lemma find?_addToAccounts (uuid : String) (p : Post) :
    ∀ accs : List Account,
      (addToAccounts uuid p accs).find? (fun a => a.id == uuid) =
        some (match accs.find? (fun a => a.id == uuid) with
              | some a => ⟨a.id, some (a.posts.getD [] ++ [p])⟩
              | none => ⟨uuid, some [p]⟩)
  | [] => by simp [addToAccounts, List.find?]
  | a :: rest => by
    by_cases h : a.id = uuid
    · simp [addToAccounts, h, List.find?]
    · have hb : (a.id == uuid) = false := beq_eq_false_iff_ne.mpr h
      simp only [addToAccounts, hb, Bool.false_eq_true, if_false, List.find?_cons, hb]
      exact find?_addToAccounts uuid p rest

lemma get_posts_add_post (uuid : String) (p : Post) (f : StoreFile) :
    get_posts uuid (some (add_post uuid p f)) = get_posts uuid f ++ [p] := by
  simp only [get_posts, add_post, readOrInit, Option.getD_some, findPosts,
    find?_addToAccounts]
  cases hacc : (Option.getD f defaultDoc).accounts with
  | none => simp [Option.getD_none, List.find?]
  | some l =>
    simp only [Option.getD_some]
    cases hf : l.find? (fun a => a.id == uuid) <;> simp

/-- Claim C1: on a document where each account id occurs in at most one
record, `add_post` preserves the uniqueness invariant; for an id not present
it appends exactly one new record holding the single post; for an id already
present it never creates a second record with that id. -/
theorem add_post_preserves_unique_ids (uuid : String) (p : Post) (d : Doc)
    (h : UniqueIds (d.accounts.getD [])) :
    UniqueIds ((add_post uuid p (some d)).accounts.getD []) ∧
    ((∀ a ∈ d.accounts.getD [], a.id ≠ uuid) →
      (add_post uuid p (some d)).accounts =
        some (d.accounts.getD [] ++ [⟨uuid, some [p]⟩])) ∧
    ((∃ a ∈ d.accounts.getD [], a.id = uuid) →
      countId uuid ((add_post uuid p (some d)).accounts.getD []) =
        countId uuid (d.accounts.getD [])) := by
  set accs := d.accounts.getD [] with haccs
  have hres : (add_post uuid p (some d)).accounts.getD [] = addToAccounts uuid p accs := by
    simp [add_post, readOrInit, haccs]
  refine ⟨?_, ?_, ?_⟩
  · intro u
    rw [hres, countId_addToAccounts]
    by_cases hc : u = uuid ∧ ∀ a ∈ accs, a.id ≠ uuid
    · rw [if_pos hc]
      have : countId u accs = 0 := by
        rcases hc with ⟨rfl, hall⟩
        simp only [countId, List.length_eq_zero, List.filter_eq_nil_iff]
        intro a ha
        exact beq_eq_false_iff_ne.mpr (hall a ha) ▸ (by simp [hall a ha])
      omega
    · rw [if_neg hc]; exact h u
  · intro habs
    simp [add_post, readOrInit, ← haccs, addToAccounts_not_found uuid p accs habs]
  · rintro ⟨a, ha, hid⟩
    rw [hres, countId_addToAccounts]
    rw [if_neg]
    rintro ⟨-, hall⟩
    exact hall a ha hid

/-- Claim C1 witness: instantiation on a concrete document holding one
record for another account. -/
theorem add_post_preserves_unique_ids_witness :
    UniqueIds ((add_post "abc" ⟨"hi", "d"⟩
        (some ⟨some [⟨"xyz", some []⟩], []⟩)).accounts.getD []) ∧
    ((∀ a ∈ (Doc.accounts ⟨some [⟨"xyz", some []⟩], []⟩).getD [], a.id ≠ "abc") →
      (add_post "abc" ⟨"hi", "d"⟩ (some ⟨some [⟨"xyz", some []⟩], []⟩)).accounts =
        some ((Doc.accounts ⟨some [⟨"xyz", some []⟩], []⟩).getD [] ++
          [⟨"abc", some [⟨"hi", "d"⟩]⟩])) ∧
    ((∃ a ∈ (Doc.accounts ⟨some [⟨"xyz", some []⟩], []⟩).getD [], a.id = "abc") →
      countId "abc" ((add_post "abc" ⟨"hi", "d"⟩
          (some ⟨some [⟨"xyz", some []⟩], []⟩)).accounts.getD []) =
        countId "abc" ((Doc.accounts ⟨some [⟨"xyz", some []⟩], []⟩).getD [])) :=
  add_post_preserves_unique_ids "abc" ⟨"hi", "d"⟩ ⟨some [⟨"xyz", some []⟩], []⟩
    (by intro u; simp only [Option.getD_some, countId]; cases hu : (("xyz" : String) == u) <;>
      simp [List.filter, hu])

/-- Claim C2: `add_post` is append-only. Adding the posts `ps` one by one for
one account extends what `get_posts` returns for that account by exactly
`ps`, in order, leaving every earlier entry unchanged; in particular, from a
state where the account has no posts, `get_posts` returns exactly `ps`. -/
theorem get_posts_addPosts (uuid : String) (ps : List Post) (f : StoreFile) :
    get_posts uuid (addPosts uuid f ps) = get_posts uuid f ++ ps := by
  induction ps generalizing f with
  | nil => simp [addPosts]
  | cons p rest ih =>
    rw [addPosts, ih, get_posts_add_post, List.append_assoc, List.singleton_append]

/-- Claim C3: `get_posts` returns the empty list for an account id carried by
no record of the document; a missing store file is initialized with the
default empty schema, the dictionary mapping `posts` and `accounts` to empty
lists; and a document without the `accounts` key also yields the empty
list. -/
theorem get_posts_absent (uuid : String) (f : StoreFile)
    (h : ∀ a ∈ (readOrInit f).accounts.getD [], a.id ≠ uuid) :
    get_posts uuid f = [] ∧
    get_posts_file none = some defaultDoc ∧
    defaultDoc = ⟨some [], [("posts", JVal.arr [])]⟩ ∧
    (∀ d : Doc, d.accounts = none → get_posts uuid (some d) = []) := by
  refine ⟨?_, rfl, rfl, ?_⟩
  · unfold get_posts findPosts
    cases hacc : (readOrInit f).accounts with
    | none => rfl
    | some l =>
      rw [hacc, Option.getD_some] at h
      have : l.find? (fun a => a.id == uuid) = none := by
        rw [List.find?_eq_none]
        intro a ha
        simpa using h a ha
      simp [this]
  · intro d hd
    unfold get_posts findPosts readOrInit
    simp [hd]

/-- Claim C3 witness: instantiation on a file holding one record for a
different account. -/
theorem get_posts_absent_witness :
    (∀ a ∈ (readOrInit (some ⟨some [⟨"xyz", some []⟩], []⟩)).accounts.getD [],
      a.id ≠ "abc") ∧
    (get_posts "abc" (some ⟨some [⟨"xyz", some []⟩], []⟩) = [] ∧
     get_posts_file none = some defaultDoc ∧
     defaultDoc = ⟨some [], [("posts", JVal.arr [])]⟩ ∧
     (∀ d : Doc, d.accounts = none → get_posts "abc" (some d) = [])) :=
  ⟨by decide, get_posts_absent "abc" (some ⟨some [⟨"xyz", some []⟩], []⟩) (by decide)⟩

/-- Claim C4: whatever the backend answers, every text the generator
actually returns has length strictly below 260; a candidate whose sanitized
form has length at least 260 is discarded and the generator retries on the
next attempt; and the first candidate whose sanitized form is shorter than
260 is returned as-is. -/
theorem generate_post_length (backend : Nat → Option String) :
    (∀ fuel attempt s, generate_post backend fuel attempt = GenResult.ok s →
      s.length < 260) ∧
    (∀ fuel attempt r, backend attempt = some r → 260 ≤ (sanitize r).length →
      generate_post backend (fuel + 1) attempt =
        generate_post backend fuel (attempt + 1)) ∧
    (∀ fuel attempt r, backend attempt = some r → (sanitize r).length < 260 →
      generate_post backend (fuel + 1) attempt = GenResult.ok (sanitize r)) := by
  refine ⟨?_, ?_, ?_⟩
  · intro fuel
    induction fuel with
    | zero => intro attempt s hs; exact absurd hs (by simp [generate_post])
    | succ n ih =>
      intro attempt s hs
      cases hb : backend attempt with
      | none => simp [generate_post, hb] at hs
      | some c =>
        simp only [generate_post, hb] at hs
        split at hs
        · exact ih (attempt + 1) s hs
        · cases hs
          omega
  · intro fuel attempt r hr hlen
    simp only [generate_post, hr, if_pos hlen]
  · intro fuel attempt r hr hlen
    have : ¬ 260 ≤ (sanitize r).length := by omega
    simp only [generate_post, hr, if_neg this]

/-- Claim C4 witness: a backend answering a 300-character text on the first
attempt and a short text on later attempts; the long candidate is discarded,
the short one returned, and the returned text is below the bound. -/
theorem generate_post_length_witness :
    generate_post witnessBackend 2 0 = GenResult.ok "short" ∧
    ("short" : String).length < 260 ∧
    generate_post witnessBackend 2 0 = generate_post witnessBackend 1 1 ∧
    generate_post witnessBackend 1 1 = GenResult.ok "short" :=
  ⟨by decide,
   (generate_post_length witnessBackend).1 2 0 "short" (by decide),
   (generate_post_length witnessBackend).2.1 1 0
     (String.mk (List.replicate 300 'a')) rfl (by decide),
   (generate_post_length witnessBackend).2.2 0 1 "short" rfl (by decide)⟩

/-- With the 300-character backend, every recursion budget is exhausted:
the recursion in `generate_post` never returns. -/
lemma backend300_diverges :
    ∀ fuel attempt, generate_post backend300 fuel attempt = GenResult.diverge
  | 0, _ => rfl
  | fuel + 1, attempt => by
    have hlen : (260 : Nat) ≤ (sanitize (String.mk (List.replicate 300 'a'))).length := by
      decide
    simp only [generate_post, backend300, if_pos hlen]
    exact backend300_diverges fuel (attempt + 1)

/-- Claim C5 counterexample: against the backend that always returns a
300-character text, there is no finite attempt budget within which
`generate_post` returns a result or reports a failure: the claimed bounded
retry does not exist in the code. -/
theorem generate_post_unbounded_retry : ¬ ReportsOutcome backend300 := by
  rintro ⟨fuel, hne⟩
  exact hne (backend300_diverges fuel 0)

/-- Claim C5 (amended): `generate_post` does not terminate for every
backend. Against any backend whose every response sanitizes to at least 260
characters — in particular one always returning 300-character text — the
recursion retries forever: for every recursion budget it ends with the
budget exhausted, never with a returned text or a reported failure. -/
theorem generate_post_diverges (backend : Nat → Option String)
    (h : AlwaysLong backend) :
    ∀ fuel attempt, generate_post backend fuel attempt = GenResult.diverge := by
  intro fuel
  induction fuel with
  | zero => intro attempt; rfl
  | succ n ih =>
    intro attempt
    obtain ⟨r, hr, hlen⟩ := h attempt
    simp only [generate_post, hr, if_pos hlen]
    exact ih (attempt + 1)

/-- Claim C5 witness: the amended statement instantiated on the
300-character backend with budget 5. -/
theorem generate_post_diverges_witness :
    AlwaysLong backend300 ∧ generate_post backend300 5 0 = GenResult.diverge := by
  have hAL : AlwaysLong backend300 := by
    intro attempt
    exact ⟨String.mk (List.replicate 300 'a'), rfl, by decide⟩
  exact ⟨hAL, generate_post_diverges backend300 hAL 5 0⟩

/-- Claim C6: when the composer input never becomes visible within the wait
timeout, `post` returns at once: `add_post` is not reached, the store file
is left exactly as it was, and no success is reported. -/
theorem post_composer_timeout_no_write (submitClickable : Bool)
    (uuid content date : String) (f : StoreFile) :
    post_run false submitClickable uuid content date f = (f, false) := rfl

/-- Claim C7: a backend answering with the absence signal makes
`generate_post` take the fatal process-terminating exit rather than return a
text. -/
theorem generate_post_none_fatal (backend : Nat → Option String)
    (fuel attempt : Nat) (h : backend attempt = none) :
    generate_post backend (fuel + 1) attempt = GenResult.fatal := by
  simp only [generate_post, h]

/-- Claim C7 witness: instantiation on the backend that never answers. -/
theorem generate_post_none_fatal_witness :
    (fun _ : Nat => (none : Option String)) 0 = none ∧
    generate_post (fun _ : Nat => (none : Option String)) 1 0 = GenResult.fatal :=
  ⟨rfl, generate_post_none_fatal (fun _ => none) 0 0 rfl⟩

/-- Claim C8: sanitization strips the emphasis and quote characters, so the
backend response given in the spec sanitizes to exactly the expected text,
which is below the length bound and returned as-is by the generator. -/
theorem sanitize_example :
    sanitize "This is great! *wow*" = "This is great! wow" ∧
    generate_post (fun _ : Nat => some "This is great! *wow*") 1 0 =
      GenResult.ok "This is great! wow" :=
  ⟨by decide, by decide⟩

/-! Round-trip lemmas for the document encoding. -/

lemma decodePost_toJVal (p : Post) : decodePost (Post.toJVal p) = some p := rfl

lemma decodePosts_map (ps : List Post) :
    decodeList decodePost (ps.map Post.toJVal) = some ps := by
  induction ps with
  | nil => rfl
  | cons p rest ih => simp [decodeList, decodePost_toJVal, ih]

lemma decodeAccount_toJVal (a : Account) : decodeAccount (Account.toJVal a) = some a := by
  obtain ⟨i, posts⟩ := a
  cases posts with
  | none => rfl
  | some ps =>
    have h1 : jLookup "id"
        [("id", JVal.str i), ("posts", JVal.arr (ps.map Post.toJVal))] =
          some (JVal.str i) := rfl
    have h2 : jLookup "posts"
        [("id", JVal.str i), ("posts", JVal.arr (ps.map Post.toJVal))] =
          some (JVal.arr (ps.map Post.toJVal)) := rfl
    simp [decodeAccount, Account.toJVal, h1, h2, decodePosts, decodePosts_map]

lemma decodeAccounts_map (accs : List Account) :
    decodeList decodeAccount (accs.map Account.toJVal) = some accs := by
  induction accs with
  | nil => rfl
  | cons a rest ih => simp [decodeList, decodeAccount_toJVal, ih]

/-- Claim C9: writing the store document out and reading it back through the
field accesses the code performs yields the same document: each record id,
each post list, the presence of the optional keys and every other top-level
field survive the round trip. -/
theorem decode_encode_doc :
    ∀ d : Doc, (∀ kv ∈ d.others, kv.1 ≠ "accounts") →
      decodeDoc (Doc.toJVal d) = some d
  | ⟨none, others⟩, h => by
    have hfind : others.find? (fun kv => kv.1 == "accounts") = none := by
      rw [List.find?_eq_none]
      intro kv hkv
      simpa using h kv hkv
    have hl : jLookup "accounts" others = none := by
      rw [jLookup, hfind]
      rfl
    have hfilter : others.filter (fun kv => kv.1 ≠ "accounts") = others := by
      rw [List.filter_eq_self]
      intro kv hkv
      simpa using h kv hkv
    simp only [Doc.toJVal, List.nil_append, decodeDoc, hl, hfilter]
  | ⟨some accs, others⟩, h => by
    have hfilter : others.filter (fun kv => kv.1 ≠ "accounts") = others := by
      rw [List.filter_eq_self]
      intro kv hkv
      simpa using h kv hkv
    have hd : decodeDoc (Doc.toJVal ⟨some accs, others⟩) =
        (decodeList decodeAccount (accs.map Account.toJVal)).map
          (fun l => ⟨some l, others.filter (fun kv => kv.1 ≠ "accounts")⟩) := rfl
    rw [hd, decodeAccounts_map, Option.map_some', hfilter]

/-- Claim C9 witness: the round trip instantiated on a sample document with
two records and a legacy top-level `posts` field. -/
theorem decode_encode_doc_witness :
    (∀ kv ∈ sampleDoc.others, kv.1 ≠ "accounts") ∧
    decodeDoc (Doc.toJVal sampleDoc) = some sampleDoc :=
  ⟨by decide, decode_encode_doc sampleDoc (by decide)⟩

/-- The account loop leaves the subsequence of records carrying any other id
untouched. -/
lemma filter_addToAccounts (uuid : String) (p : Post) :
    ∀ accs : List Account,
      (addToAccounts uuid p accs).filter (fun a => a.id != uuid) =
        accs.filter (fun a => a.id != uuid)
  | [] => by simp [addToAccounts]
  | a :: rest => by
    by_cases h : a.id = uuid
    · simp [addToAccounts, h, List.filter_cons]
    · simp [addToAccounts, h, List.filter_cons, filter_addToAccounts uuid p rest]

/-- Claim C10: frame property of `add_post`. Every top-level field of the
document other than `accounts` — for example the legacy `posts` field — is
written back verbatim, and the records whose id differs from the posting
account are written back unchanged and in their order. -/
theorem add_post_frame (uuid : String) (p : Post) (d : Doc) :
    (add_post uuid p (some d)).others = d.others ∧
    ((add_post uuid p (some d)).accounts.getD []).filter (fun a => a.id != uuid) =
      (d.accounts.getD []).filter (fun a => a.id != uuid) := by
  constructor
  · rfl
  · have hres : (add_post uuid p (some d)).accounts.getD [] =
        addToAccounts uuid p (d.accounts.getD []) := rfl
    rw [hres, filter_addToAccounts]

end MoneyPrinter
